import Mathlib

/-!
Formal model of the StateFlow execution subsystem.

The definitions below are shallow embeddings of the TypeScript sources:

* `calculateNextDelay`    — apps/api/src/services/retry-math.ts (`calculateNextDelay`)
* `ExecStatus`, `Execution`, `StepResultRecord` — apps/api/src/services/storage/types.ts
* the store operations    — apps/api/src/services/storage/file-store.ts
  (`createExecutionSync`, `claimExecutions`, `updateExecution`, `addStepResult`)
* `runnerHandleFailure`, `runnerPostStep`, the patch constants — the step loop of
  `runWorkflowExecution` in apps/api/src/services/engine.ts
* `executeStepTimed` / `delayHandler` — `executeStep` in apps/api/src/services/engine.ts
* `cancelExecution`       — the POST /:id/cancel handler in apps/api/src/routes/executions.ts
* `dlqAdd`                — apps/api/src/services/dlq.ts (`DeadLetterQueue.add`)
* `sqlClaimCandidates`    — the selection subquery of packages/db/rpc.sql (`claim_executions`)

Modelling conventions: timestamps are naturals (ms since epoch); JSON payloads that no
claim inspects structurally (execution input/output, step outputs) are opaque strings;
JavaScript `x || d` on numbers is embedded as `if x = 0 then d else x` (and `none → d`
for optional fields), because `0` is falsy in JavaScript; `Math.random()` is an explicit
rational argument `rand` with `0 ≤ rand < 1`.  A JavaScript `Map` is an association
list in insertion order (`Map.set` on a fresh key appends, on an existing key replaces
in place), and each store method body — which the file store runs under its lock
directory — is one atomic function on the store state.  Execution `logs` and the
`workflows` table are omitted: no modelled operation's observable behaviour on
executions, step results or the DLQ depends on them; the `workflowName` that
`createExecutionSync` derives from the workflow lookup is passed as an argument.
-/

namespace StateFlow

/-- Execution lifecycle status (storage/types.ts `ExecutionStatus`). -/
inductive ExecStatus where
  | pending
  | running
  | completed
  | failed
  | retry_scheduled
  | cancelled
  deriving DecidableEq, Repr

/-- Status of a single step attempt record (`'completed' | 'failed'`). -/
inductive StepRunStatus where
  | completed
  | failed
  deriving DecidableEq, Repr

/-- One step-result record (storage/types.ts `StepResultRecord`). -/
structure StepResultRecord where
  stepId : String
  status : StepRunStatus
  output : Option String
  error : Option String
  attempts : Nat
  startedAt : Option Nat
  completedAt : Option Nat
  deriving DecidableEq, Repr

/-- An execution row (storage/types.ts `Execution`).  The optional TS field
`retryCount?: number` is embedded as a `Nat` (all readers use `retryCount || 0`). -/
structure Execution where
  id : String
  workflowId : String
  workflowName : String
  status : ExecStatus
  input : String
  output : Option String
  error : Option String
  idempotencyKey : Option String
  nextRetryAt : Option Nat
  retryCount : Nat
  currentStepId : Option String
  workerId : Option String
  lockedAt : Option Nat
  steps : List StepResultRecord
  createdAt : Nat
  startedAt : Option Nat
  completedAt : Option Nat
  deriving DecidableEq, Repr

/-- The durable state of the file store: the `executions` map and the
`idempotencyKeys` map, both in insertion order. -/
structure StoreState where
  executions : List Execution
  idempotencyKeys : List (String × String)
  deriving DecidableEq, Repr

/-- Retry policy carried by a workflow step (engine.ts `WorkflowStep.retryPolicy`). -/
structure StepRetryPolicy where
  maxAttempts : Nat
  delayMs : Nat
  backoffMultiplier : Option ℚ
  deriving DecidableEq, Repr

/-- A workflow step definition (engine.ts `WorkflowStep`), with the `config` payload
projected to the one field the modelled handlers read (`config.durationMs` of the
`delay` handler). -/
structure WorkflowStep where
  id : String
  type : String
  durationMs : Option Nat
  timeoutMs : Option Nat
  next : Option String
  onError : Option String
  retryPolicy : Option StepRetryPolicy
  deriving DecidableEq, Repr

/-- A dead-letter-queue entry (dlq.ts `DLQEntry`). -/
structure DlqEntry where
  id : String
  executionId : String
  workflowId : String
  workflowName : String
  failedAt : Nat
  reason : String
  lastError : String
  totalAttempts : Nat
  lastStepId : Option String
  canRetry : Bool
  deriving DecidableEq, Repr

/-- Retry-math: `calculateNextDelay(attempt, baseDelayMs = 1000, maxDelayMs = 30000)`
from retry-math.ts.  `rand` stands for the `Math.random()` draw. -/
def calculateNextDelay (attempt : ℤ) (baseDelayMs : Nat) (maxDelayMs : Nat) (rand : ℚ) : ℤ :=
  let safeAttempt : ℤ := max 1 attempt
  let exponentialDelay : ℚ := (baseDelayMs : ℚ) * 2 ^ (safeAttempt - 1).toNat
  let cappedDelay : ℚ := min exponentialDelay (maxDelayMs : ℚ)
  let jitterFactor : ℚ := rand * (1 / 5)
  let jitter : ℚ := cappedDelay * jitterFactor
  Int.floor (cappedDelay + jitter)

/-- The base delay the runner feeds to `calculateNextDelay`:
`step.retryPolicy?.delayMs || 1000` (engine.ts, retry-scheduling branch). -/
def runnerRetryBaseDelay : Option StepRetryPolicy → Nat
  | some p => if p.delayMs = 0 then 1000 else p.delayMs
  | none => 1000

/-- The retry delay computed by the runner for a failing step:
`calculateNextDelay(attempts, baseDelay)` — called with two arguments, so the cap
is the default 30000 and the multiplier is the hard-coded 2 of retry-math.ts. -/
def runnerRetryDelay (step : WorkflowStep) (attempts : Nat) (rand : ℚ) : ℤ :=
  calculateNextDelay attempts (runnerRetryBaseDelay step.retryPolicy) 30000 rand

/-- The attempt budget the runner compares against:
`step.retryPolicy?.maxAttempts || 3` (engine.ts, failure branch). -/
def runnerMaxAttempts (step : WorkflowStep) : Nat :=
  match step.retryPolicy with
  | some p => if p.maxAttempts = 0 then 3 else p.maxAttempts
  | none => 3

/-- Point read of an execution: `this.executions.get(id)` (first — unique — entry
with that id). -/
def getExecution (st : StoreState) (id : String) : Option Execution :=
  st.executions.find? (fun e => e.id == id)

/-- Lookup in the idempotency index: `this.idempotencyKeys.get(key)`. -/
def lookupIdempotencyKey (st : StoreState) (k : String) : Option String :=
  (st.idempotencyKeys.find? (fun kv => kv.1 == k)).map (fun kv => kv.2)

/-- `Map.set` on the idempotency index: replaces in place, or appends a fresh key. -/
def setIdempotencyKey (l : List (String × String)) (k v : String) : List (String × String) :=
  match l with
  | [] => [(k, v)]
  | kv :: rest => if kv.1 == k then (k, v) :: rest else kv :: setIdempotencyKey rest k v

/-- A `Partial<Execution>` patch over the mutable fields, as passed to
`updateExecution`.  `some none` on a nullable field models a key present with value
`undefined`/`null` (which `Object.assign` does copy). -/
structure ExecutionPatch where
  status : Option ExecStatus
  output : Option (Option String)
  error : Option (Option String)
  currentStepId : Option (Option String)
  retryCount : Option Nat
  nextRetryAt : Option (Option Nat)
  workerId : Option (Option String)
  lockedAt : Option (Option Nat)
  startedAt : Option (Option Nat)
  completedAt : Option (Option Nat)
  deriving DecidableEq, Repr

/-- The patch with no keys present. -/
def emptyPatch : ExecutionPatch :=
  { status := none, output := none, error := none, currentStepId := none,
    retryCount := none, nextRetryAt := none, workerId := none, lockedAt := none,
    startedAt := none, completedAt := none }

/-- `Object.assign(execution, updates)`: every present key overwrites the field,
unconditionally — there is no terminal-state guard in `updateExecution`. -/
def applyPatch (p : ExecutionPatch) (e : Execution) : Execution :=
  { e with
    status := p.status.getD e.status
    output := p.output.getD e.output
    error := p.error.getD e.error
    currentStepId := p.currentStepId.getD e.currentStepId
    retryCount := p.retryCount.getD e.retryCount
    nextRetryAt := p.nextRetryAt.getD e.nextRetryAt
    workerId := p.workerId.getD e.workerId
    lockedAt := p.lockedAt.getD e.lockedAt
    startedAt := p.startedAt.getD e.startedAt
    completedAt := p.completedAt.getD e.completedAt }

/-- `updateExecution(id, updates)` of file-store.ts: assign the patch onto the entry
with that id, if present. -/
def updateExecution (st : StoreState) (id : String) (p : ExecutionPatch) : StoreState :=
  { st with executions := st.executions.map (fun e => if e.id == id then applyPatch p e else e) }

/-- Replace the first record with a matching `stepId` (the `findIndex` hit). -/
def replaceFirstStep (r : StepResultRecord) : List StepResultRecord → List StepResultRecord
  | [] => []
  | s :: rest => if s.stepId == r.stepId then r :: rest else s :: replaceFirstStep r rest

/-- The step-result insertion of file-store.ts `addStepResult`: if a record with the
same `stepId` exists it is REPLACED (`steps[existingIndex] = stepResult`), otherwise
the record is pushed. -/
def applyAddStepResult (r : StepResultRecord) (e : Execution) : Execution :=
  { e with steps :=
      if e.steps.any (fun s => s.stepId == r.stepId) then replaceFirstStep r e.steps
      else e.steps ++ [r] }

/-- `addStepResult(id, stepResult)` of file-store.ts. -/
def addStepResult (st : StoreState) (id : String) (r : StepResultRecord) : StoreState :=
  { st with executions := st.executions.map (fun e => if e.id == id then applyAddStepResult r e else e) }

/-- A freshly created pending execution row (`createExecutionSync`, file-store.ts). -/
def newExecution (workflowId workflowName : String) (input : String)
    (idempotencyKey : Option String) (newId : String) (now : Nat) : Execution :=
  { id := newId, workflowId := workflowId, workflowName := workflowName,
    status := .pending, input := input, output := none, error := none,
    idempotencyKey := idempotencyKey, steps := [], createdAt := now,
    startedAt := none, completedAt := none, retryCount := 0,
    nextRetryAt := none, currentStepId := none, workerId := none, lockedAt := none }

/-- The fresh-row path of `createExecutionSync`: append a new pending execution and
register the idempotency key when present. -/
def createFreshExecution (st : StoreState) (workflowId workflowName : String)
    (input : String) (idempotencyKey : Option String) (newId : String) (now : Nat) :
    Execution × StoreState :=
  let e := newExecution workflowId workflowName input idempotencyKey newId now
  let keys := match idempotencyKey with
    | some k => setIdempotencyKey st.idempotencyKeys k newId
    | none => st.idempotencyKeys
  (e, { executions := st.executions ++ [e], idempotencyKeys := keys })

/-- `createExecutionSync(workflowId, input, idempotencyKey)` of file-store.ts, run
under the store lock.  If the idempotency key already maps to an existing execution,
that execution is returned and the state is untouched; otherwise a fresh pending row
is appended and the key registered.  `newId` stands for the generated
`exec-<time>-<rand>` id and `workflowName` for `workflow?.name || 'unknown'`. -/
def createExecution (st : StoreState) (workflowId workflowName : String) (input : String)
    (idempotencyKey : Option String) (newId : String) (now : Nat) : Execution × StoreState :=
  match idempotencyKey with
  | some k =>
    match lookupIdempotencyKey st k with
    | some existingId =>
      match getExecution st existingId with
      | some existing => (existing, st)
      | none => createFreshExecution st workflowId workflowName input idempotencyKey newId now
    | none => createFreshExecution st workflowId workflowName input idempotencyKey newId now
  | none => createFreshExecution st workflowId workflowName input idempotencyKey newId now

/-- Eligibility filter of the claim primitive (file-store.ts `claimExecutions` and
the WHERE clause of rpc.sql): pending, or retry_scheduled with a due
`nextRetryAt`. -/
def eligibleB (now : Nat) (e : Execution) : Bool :=
  decide (e.status = .pending) ||
    (decide (e.status = .retry_scheduled) &&
      (match e.nextRetryAt with
       | some t => decide (t ≤ now)
       | none => false))

/-- The comparator key of file-store.ts `claimExecutions`:
`const timeA = a.nextRetryAt || a.createdAt` — NOT plain `createdAt`. -/
def claimSortKey (e : Execution) : Nat :=
  e.nextRetryAt.getD e.createdAt

/-- The candidate batch of file-store.ts `claimExecutions`: filter eligible rows,
sort them ascending by `claimSortKey` (a stable sort, modelling
`Array.prototype.sort` with the comparator `timeA - timeB`), and take the first
`limit`. -/
def claimCandidates (st : StoreState) (now : Nat) (limit : Nat) : List Execution :=
  ((st.executions.filter (eligibleB now)).insertionSort
    (fun a b => claimSortKey a ≤ claimSortKey b)).take limit

/-- The candidate batch of the SQL claim (rpc.sql `claim_executions`): same filter,
but `ORDER BY created_at ASC`. -/
def sqlClaimCandidates (st : StoreState) (now : Nat) (limit : Nat) : List Execution :=
  ((st.executions.filter (eligibleB now)).insertionSort
    (fun a b => a.createdAt ≤ b.createdAt)).take limit

/-- The in-loop lock re-check of file-store.ts `claimExecutions`:
`fresh.lockedAt && (now - fresh.lockedAt) < 300000` — a row with a fresh lock is
skipped. -/
def lockIsFresh (now : Nat) : Option Nat → Bool
  | some l => decide (now - l < 300000)
  | none => false

/-- The in-place claim of one candidate: set `workerId`/`lockedAt`, and if the row is
still pending/retry_scheduled move it to running and coalesce `startedAt`. -/
def applyClaim (workerId : String) (now : Nat) (e : Execution) : Execution :=
  let e1 := { e with workerId := some workerId, lockedAt := some now }
  if e.status = .pending ∨ e.status = .retry_scheduled then
    { e1 with status := .running, startedAt := some (e1.startedAt.getD now) }
  else e1

/-- Replace the entry with the given id by `e'` (in-place mutation of the map entry). -/
def setExecution (st : StoreState) (id : String) (e' : Execution) : StoreState :=
  { st with executions := st.executions.map (fun x => if x.id == id then e' else x) }

/-- The per-candidate body of the claim loop in file-store.ts `claimExecutions`. -/
def claimStep (workerId : String) (now : Nat) (acc : List Execution × StoreState)
    (cand : Execution) : List Execution × StoreState :=
  match getExecution acc.2 cand.id with
  | none => acc
  | some fresh =>
    if lockIsFresh now fresh.lockedAt then acc
    else
      let upd := applyClaim workerId now fresh
      (acc.1 ++ [upd], setExecution acc.2 cand.id upd)

/-- `claimExecutions(workerId, limit)` of file-store.ts: one atomic batch claim,
returning the claimed executions and the updated store. -/
def claimExecutions (st : StoreState) (workerId : String) (limit : Nat) (now : Nat) :
    List Execution × StoreState :=
  (claimCandidates st now limit).foldl (claimStep workerId now) ([], st)

/-- Result shape of the step interpreter (engine.ts `StepResult`). -/
structure ModelStepResult where
  status : StepRunStatus
  output : Option String
  error : Option String
  nextStep : Option String
  deriving DecidableEq, Repr

/-- A handler run, abstracted to its settled result and the wall-clock time (ms) at
which it settles — the shallow embedding of the handler promise in the
`Promise.race` of engine.ts `executeStep`. -/
structure HandlerOutcome where
  result : ModelStepResult
  finishTime : Nat
  deriving DecidableEq, Repr

/-- Effective step timeout: `step.timeoutMs || 60000` (engine.ts `executeStep`). -/
def effectiveTimeoutMs (step : WorkflowStep) : Nat :=
  match step.timeoutMs with
  | some t => if t = 0 then 60000 else t
  | none => 60000

/-- The delay a `delay` handler sleeps: `config.durationMs || 1000`. -/
def delayDurationMs (cfg : Option Nat) : Nat :=
  match cfg with
  | some d => if d = 0 then 1000 else d
  | none => 1000

/-- The `delay` built-in handler: sleeps `durationMs`, then resolves
`{completed, output: {delayed: true}, next: step.next}`. -/
def delayHandler (step : WorkflowStep) : HandlerOutcome :=
  { result := { status := .completed, output := some "delayed", error := none,
                nextStep := step.next },
    finishTime := delayDurationMs step.durationMs }

/-- `Promise.race` of the handler against the timeout timer: the timer fires strictly
after `timeoutMs` ms, so it wins exactly when the handler needs longer than the
timeout, and the rejection is caught and returned as a failed result with the message
`Step timed out after <timeout_ms>ms`. -/
def raceWithTimeout (timeoutMs : Nat) (handler : HandlerOutcome) : ModelStepResult :=
  if timeoutMs < handler.finishTime then
    { status := .failed,
      error := some ("Step timed out after " ++ toString timeoutMs ++ "ms"),
      output := none, nextStep := none }
  else handler.result

/-- `executeStep` of engine.ts, for a handler with the given settle time: the handler
is raced against the effective timeout. -/
def executeStepTimed (step : WorkflowStep) (handler : HandlerOutcome) : ModelStepResult :=
  raceWithTimeout (effectiveTimeoutMs step) handler

/-- `executeStep` on a `delay` step. -/
def executeStepDelay (step : WorkflowStep) : ModelStepResult :=
  executeStepTimed step (delayHandler step)

/-- `DeadLetterQueue.add(executionId, reason)` of dlq.ts: reads the execution and
appends exactly one entry (no entry when the execution is missing).  `newId` stands
for the generated `dlq-<time>-<rand>` id. -/
def dlqAdd (st : StoreState) (entries : List DlqEntry) (executionId reason newId : String)
    (now : Nat) : List DlqEntry :=
  match getExecution st executionId with
  | none => entries
  | some e =>
    entries ++
      [{ id := newId, executionId := executionId, workflowId := e.workflowId,
         workflowName := e.workflowName, failedAt := now, reason := reason,
         lastError := e.error.getD "Unknown error",
         totalAttempts := (e.steps.map (fun s => s.attempts)).sum,
         lastStepId := (e.steps.find? (fun s => decide (s.status = .failed))).map
           (fun s => s.stepId),
         canRetry := true }]

/-- The success-path reset written before a completed step result:
`{retryCount: 0, nextRetryAt: undefined}` (engine.ts). -/
def successResetPatch : ExecutionPatch :=
  { emptyPatch with retryCount := some 0, nextRetryAt := some none }

/-- The incremental state persist after a completed step: `{output: context.state}`. -/
def persistOutputPatch (ctxState : String) : ExecutionPatch :=
  { emptyPatch with output := some (some ctxState) }

/-- The retry write of the failure branch: `{status: retry_scheduled, retryCount:
attempts, nextRetryAt, error, currentStepId: step.id}` (engine.ts). -/
def retryScheduledPatch (attempts : Nat) (nextRetryAt : Nat) (errMsg : Option String)
    (stepId : String) : ExecutionPatch :=
  { emptyPatch with
    status := some .retry_scheduled, retryCount := some attempts,
    nextRetryAt := some (some nextRetryAt), error := some errMsg,
    currentStepId := some (some stepId) }

/-- The fatal write of the catch block: `{status: failed, error, output, completedAt}`
(engine.ts). -/
def fatalFailurePatch (msg : String) (ctxState : String) (now : Nat) : ExecutionPatch :=
  { emptyPatch with
    status := some .failed, error := some (some msg),
    output := some (some ctxState), completedAt := some (some now) }

/-- The success-termination write after the step loop exits: `{status: completed,
output, completedAt, currentStepId: undefined}` (engine.ts) — issued with no further
cancellation check. -/
def completionPatch (ctxState : String) (now : Nat) : ExecutionPatch :=
  { emptyPatch with
    status := some .completed, output := some (some ctxState),
    completedAt := some (some now), currentStepId := some none }

/-- The cancel write of the POST /:id/cancel route: `{status: cancelled, completedAt:
now, error: 'Cancelled by user'}`. -/
def cancelPatch (now : Nat) : ExecutionPatch :=
  { emptyPatch with
    status := some .cancelled, completedAt := some (some now),
    error := some (some "Cancelled by user") }

/-- Semantic outcome of the cancel route (routes/executions.ts). -/
inductive CancelOutcome where
  | notFound
  | conflict
  | ok
  deriving DecidableEq, Repr

/-- The POST /api/executions/:id/cancel handler: 404 when unknown, 400 (conflict)
when the status is `completed` or `failed` — and ONLY then —, otherwise the cancel
write is applied. -/
def cancelExecution (st : StoreState) (id : String) (now : Nat) : CancelOutcome × StoreState :=
  match getExecution st id with
  | none => (.notFound, st)
  | some e =>
    if e.status = .completed ∨ e.status = .failed then (.conflict, st)
    else (.ok, updateExecution st id (cancelPatch now))

/-- The cancellation check of the runner loop (engine.ts): re-read the execution and
bail when its status is `cancelled`. -/
def runnerSeesCancelled (st : StoreState) (id : String) : Bool :=
  match getExecution st id with
  | some e => decide (e.status = .cancelled)
  | none => false

/-- The failure branch of the runner's step loop (engine.ts): append a failed step
result with `attempt = retryCount + 1`; if the budget is not exhausted, write the
retry_scheduled patch and return; otherwise throw into the catch block, which writes
the failed patch and appends one DLQ entry.  `snapshotRetryCount` is
`execution.retryCount || 0` from the runner's entry snapshot, `errMsg` is
`result.error?.message`, `ctxState` the accumulated `context.state`. -/
def runnerHandleFailure (st : StoreState) (dlqEntries : List DlqEntry) (execId : String)
    (step : WorkflowStep) (snapshotRetryCount : Nat) (errMsg : Option String)
    (ctxState : String) (now : Nat) (rand : ℚ) (dlqNewId : String) :
    StoreState × List DlqEntry :=
  let attempts := snapshotRetryCount + 1
  let failRecord : StepResultRecord :=
    { stepId := step.id, status := .failed, output := none, error := errMsg,
      attempts := attempts, startedAt := some now, completedAt := some now }
  let st1 := addStepResult st execId failRecord
  if attempts < runnerMaxAttempts step then
    let delay := (runnerRetryDelay step attempts rand).toNat
    (updateExecution st1 execId (retryScheduledPatch attempts (now + delay) errMsg step.id),
     dlqEntries)
  else
    let msg := errMsg.getD "Step failed max retries"
    let st2 := updateExecution st1 execId (fatalFailurePatch msg ctxState now)
    (st2, dlqAdd st2 dlqEntries execId msg dlqNewId now)

/-- The post-step tail of one runner loop iteration (engine.ts): re-check
cancellation; on a completed result, reset the retry counter, append the completed
step result, persist the accumulated state, and hand back the next cursor; on a
failed result, run the failure branch (which always ends the loop). -/
def runnerPostStep (st : StoreState) (dlqEntries : List DlqEntry) (execId : String)
    (step : WorkflowStep) (result : ModelStepResult) (snapshotRetryCount : Nat)
    (ctxState : String) (now : Nat) (rand : ℚ) (dlqNewId : String) :
    StoreState × List DlqEntry × Option String :=
  if runnerSeesCancelled st execId then (st, dlqEntries, none)
  else
    match result.status with
    | .completed =>
      let st1 := updateExecution st execId successResetPatch
      let completedRecord : StepResultRecord :=
        { stepId := step.id, status := .completed, output := result.output,
          error := none, attempts := snapshotRetryCount + 1,
          startedAt := some now, completedAt := some now }
      let st2 := addStepResult st1 execId completedRecord
      let st3 := match result.output with
        | some _ => updateExecution st2 execId (persistOutputPatch ctxState)
        | none => st2
      (st3, dlqEntries, result.nextStep)
    | .failed =>
      let (st', d') := runnerHandleFailure st dlqEntries execId step snapshotRetryCount
        result.error ctxState now rand dlqNewId
      (st', d', none)

/-! Concrete fixtures used by the counterexamples and witnesses below. -/

/-- A plain pending execution used as the base of the concrete test states. -/
def baseExec : Execution :=
  { id := "E", workflowId := "wf-1", workflowName := "demo-workflow", status := .pending,
    input := "input", output := none, error := none, idempotencyKey := none,
    nextRetryAt := none, retryCount := 0, currentStepId := none, workerId := none,
    lockedAt := none, steps := [], createdAt := 0, startedAt := none, completedAt := none }

/-- Store with the single pending execution `baseExec`. -/
def storeSingleExec : StoreState :=
  { executions := [baseExec], idempotencyKeys := [] }

/-- An old execution (created at 0) parked in retry_scheduled with a due retry at 10. -/
def execRetryOld : Execution :=
  { baseExec with
    id := "A", status := .retry_scheduled, createdAt := 0, nextRetryAt := some 10,
    retryCount := 1, currentStepId := some "s1" }

/-- A younger pending execution, created at 5. -/
def execPendingYoung : Execution :=
  { baseExec with id := "B", createdAt := 5 }

/-- Store holding the old due-retry execution and the younger pending one. -/
def storeMixedAges : StoreState :=
  { executions := [execRetryOld, execPendingYoung], idempotencyKeys := [] }

/-- Store with two pending executions, for the sequential-claim witness. -/
def storeClaimPair : StoreState :=
  { executions := [{ baseExec with id := "P1" }, { baseExec with id := "P2", createdAt := 1 }],
    idempotencyKeys := [] }

/-- A failed first attempt of step s1. -/
def failedAttemptRecord : StepResultRecord :=
  { stepId := "s1", status := .failed, output := none, error := some "boom",
    attempts := 1, startedAt := some 1, completedAt := some 1 }

/-- A completed second attempt of step s1. -/
def completedAttemptRecord : StepResultRecord :=
  { stepId := "s1", status := .completed, output := some "ok", error := none,
    attempts := 2, startedAt := some 2, completedAt := some 2 }

/-- The running execution a worker owns in the cancellation-race trace. -/
def runningExec : Execution :=
  { baseExec with
    status := .running, workerId := some "w1", lockedAt := some 1,
    startedAt := some 1 }

/-- Store with the single running execution. -/
def storeRunning : StoreState :=
  { executions := [runningExec], idempotencyKeys := [] }

/-- The store after the runner's post-step writes of its final loop iteration (the
retry-counter reset, the completed step result, and the incremental state persist) —
all issued after the iteration's cancellation checks passed. -/
def c3AfterStepStore : StoreState :=
  updateExecution
    (addStepResult (updateExecution storeRunning "E" successResetPatch) "E"
      completedAttemptRecord)
    "E" (persistOutputPatch "state")

/-- The same store after a cancel request lands (from another process) at time 40,
between the runner's last cancellation check and its completion write. -/
def c3CancelledStore : StoreState :=
  (cancelExecution c3AfterStepStore "E" 40).2

/-- The store after the runner's unconditional completion write at time 50. -/
def c3FinalStore : StoreState :=
  updateExecution c3CancelledStore "E" (completionPatch "state" 50)

/-- An execution already cancelled (terminal) at time 20. -/
def cancelledExec : Execution :=
  { baseExec with
    id := "C", status := .cancelled, completedAt := some 20,
    error := some "Cancelled by user" }

/-- Store with the single cancelled execution. -/
def storeCancelledExec : StoreState :=
  { executions := [cancelledExec], idempotencyKeys := [] }

/-- Store in which idempotency key k is already bound to execution X. -/
def storeWithKey : StoreState :=
  { executions := [{ baseExec with id := "X", idempotencyKey := some "k" }],
    idempotencyKeys := [("k", "X")] }

/-- A step with an explicit retry policy and an `onError` successor, for the
failure-branch theorems. -/
def retryStep : WorkflowStep :=
  { id := "s1", type := "http", durationMs := none, timeoutMs := none,
    next := some "s2", onError := some "fallback",
    retryPolicy := some { maxAttempts := 3, delayMs := 1000, backoffMultiplier := some 2 } }

/-- The `long-delay` step of TIMEOUT_WORKFLOW (definitions.ts): a 5000 ms delay with
a 2000 ms timeout. -/
def longDelayStep : WorkflowStep :=
  { id := "long-delay", type := "delay", durationMs := some 5000, timeoutMs := some 2000,
    next := some "success", onError := none,
    retryPolicy := some { maxAttempts := 2, delayMs := 500, backoffMultiplier := none } }

/-! Helper lemmas about the store primitives. -/

theorem applyPatch_id (p : ExecutionPatch) (e : Execution) : (applyPatch p e).id = e.id := rfl

theorem applyAddStepResult_id (r : StepResultRecord) (e : Execution) :
    (applyAddStepResult r e).id = e.id := rfl

theorem applyClaim_id (w : String) (now : Nat) (e : Execution) :
    (applyClaim w now e).id = e.id := by
  unfold applyClaim
  split <;> rfl

theorem find?_map_update {l : List Execution} {id : String} {f : Execution → Execution}
    (hf : ∀ x, x.id = id → (f x).id = id) {e : Execution}
    (h : l.find? (fun x => x.id == id) = some e) :
    (l.map (fun x => if x.id == id then f x else x)).find? (fun x => x.id == id)
      = some (f e) := by
  induction l with
  | nil => simp [List.find?] at h
  | cons x xs ih =>
    rw [List.map_cons]
    cases hb : (x.id == id) with
    | true =>
      simp only [List.find?_cons, hb] at h
      injection h with he
      subst he
      rw [if_pos rfl]
      have hfx : ((f x).id == id) = true := beq_iff_eq.mpr (hf x (beq_iff_eq.mp hb))
      simp only [List.find?_cons, hfx]
    | false =>
      simp only [List.find?_cons, hb] at h
      rw [if_neg (by simp)]
      simp only [List.find?_cons, hb]
      exact ih h

theorem find?_map_update_ne {l : List Execution} {id id' : String} {f : Execution → Execution}
    (hne : id' ≠ id) (hf : ∀ x, x.id = id → (f x).id = id) :
    (l.map (fun x => if x.id == id then f x else x)).find? (fun x => x.id == id')
      = l.find? (fun x => x.id == id') := by
  induction l with
  | nil => rfl
  | cons x xs ih =>
    rw [List.map_cons]
    cases hb : (x.id == id) with
    | true =>
      have hx : x.id = id := beq_iff_eq.mp hb
      have h1 : ((f x).id == id') = false := by
        simp only [beq_eq_false_iff_ne, ne_eq, hf x hx]
        exact fun hcontra => hne hcontra.symm
      have h2 : (x.id == id') = false := by
        simp only [beq_eq_false_iff_ne, ne_eq, hx]
        exact fun hcontra => hne hcontra.symm
      rw [if_pos rfl]
      simp only [List.find?_cons, h1, h2, ih]
    | false =>
      rw [if_neg (by simp)]
      cases hb' : (x.id == id') with
      | true => simp only [List.find?_cons, hb']
      | false => simp only [List.find?_cons, hb', ih]

theorem map_id_map_update {l : List Execution} {id : String} {f : Execution → Execution}
    (hf : ∀ x, x.id = id → (f x).id = id) :
    (l.map (fun x => if x.id == id then f x else x)).map (fun e => e.id)
      = l.map (fun e => e.id) := by
  induction l with
  | nil => rfl
  | cons x xs ih =>
    rw [List.map_cons, List.map_cons, List.map_cons, ih]
    cases hb : (x.id == id) with
    | true =>
      have hx : x.id = id := beq_iff_eq.mp hb
      rw [if_pos rfl, hf x hx, hx]
    | false => rw [if_neg (by simp)]

theorem getExecution_update {st : StoreState} {id : String} {p : ExecutionPatch}
    {e : Execution} (h : getExecution st id = some e) :
    getExecution (updateExecution st id p) id = some (applyPatch p e) :=
  find?_map_update (fun x hx => (applyPatch_id p x).trans hx) h

theorem getExecution_update_ne {st : StoreState} {id id' : String} {p : ExecutionPatch}
    (hne : id' ≠ id) :
    getExecution (updateExecution st id p) id' = getExecution st id' :=
  find?_map_update_ne hne (fun x hx => (applyPatch_id p x).trans hx)

theorem getExecution_addStep {st : StoreState} {id : String} {r : StepResultRecord}
    {e : Execution} (h : getExecution st id = some e) :
    getExecution (addStepResult st id r) id = some (applyAddStepResult r e) :=
  find?_map_update (fun x hx => (applyAddStepResult_id r x).trans hx) h

theorem getExecution_addStep_ne {st : StoreState} {id id' : String} {r : StepResultRecord}
    (hne : id' ≠ id) :
    getExecution (addStepResult st id r) id' = getExecution st id' :=
  find?_map_update_ne hne (fun x hx => (applyAddStepResult_id r x).trans hx)

theorem getExecution_set {st : StoreState} {id : String} {e' : Execution}
    {e : Execution} (h : getExecution st id = some e) (hid : e'.id = id) :
    getExecution (setExecution st id e') id = some e' :=
  find?_map_update (fun _ _ => hid) h

theorem getExecution_set_ne {st : StoreState} {id id' : String} {e' : Execution}
    (hne : id' ≠ id) (hid : e'.id = id) :
    getExecution (setExecution st id e') id' = getExecution st id' :=
  find?_map_update_ne hne (fun _ _ => hid)

theorem ids_setExecution {st : StoreState} {id : String} {e' : Execution} (hid : e'.id = id) :
    (setExecution st id e').executions.map (fun e => e.id)
      = st.executions.map (fun e => e.id) :=
  map_id_map_update (fun _ _ => hid)

theorem find?_eq_self_of_nodup {l : List Execution}
    (hnd : (l.map (fun e => e.id)).Nodup) {e : Execution} (he : e ∈ l) :
    l.find? (fun x => x.id == e.id) = some e := by
  induction l with
  | nil => cases he
  | cons x xs ih =>
    rcases List.mem_cons.mp he with rfl | hxs
    · have hb : (e.id == e.id) = true := beq_iff_eq.mpr rfl
      simp only [List.find?_cons, hb]
    · rw [List.map_cons, List.nodup_cons] at hnd
      have hxne : (x.id == e.id) = false := by
        simp only [beq_eq_false_iff_ne, ne_eq]
        intro hcontra
        exact hnd.1 (hcontra ▸ List.mem_map_of_mem (fun e => e.id) hxs)
      simp only [List.find?_cons, hxne]
      exact ih hnd.2 hxs

theorem mem_of_getExecution_some {st : StoreState} {id : String} {e : Execution}
    (h : getExecution st id = some e) : e ∈ st.executions :=
  List.mem_of_find?_eq_some h

theorem id_of_getExecution_some {st : StoreState} {id : String} {e : Execution}
    (h : getExecution st id = some e) : e.id = id := by
  have := List.find?_some h
  exact beq_iff_eq.mp this

theorem status_of_eligible {now : Nat} {e : Execution} (h : eligibleB now e = true) :
    e.status = .pending ∨ e.status = .retry_scheduled := by
  unfold eligibleB at h
  simp only [Bool.or_eq_true, Bool.and_eq_true, decide_eq_true_eq] at h
  rcases h with h | ⟨h, _⟩
  · exact Or.inl h
  · exact Or.inr h

theorem applyClaim_status_running {w : String} {now : Nat} {e : Execution}
    (h : e.status = .pending ∨ e.status = .retry_scheduled) :
    (applyClaim w now e).status = .running := by
  unfold applyClaim
  simp only []
  rw [if_pos h]

theorem claimCandidates_spec {st : StoreState} {now limit : Nat}
    (hnd : (st.executions.map (fun e => e.id)).Nodup) :
    ∀ c ∈ claimCandidates st now limit,
      getExecution st c.id = some c ∧ eligibleB now c = true := by
  intro c hc
  unfold claimCandidates at hc
  have hsorted := List.mem_of_mem_take hc
  have hfil : c ∈ st.executions.filter (eligibleB now) :=
    (List.perm_insertionSort _ _).mem_iff.mp hsorted
  exact ⟨find?_eq_self_of_nodup hnd (List.mem_of_mem_filter hfil), List.of_mem_filter hfil⟩

theorem claimCandidates_nodup {st : StoreState} {now limit : Nat}
    (hnd : (st.executions.map (fun e => e.id)).Nodup) :
    ((claimCandidates st now limit).map (fun e => e.id)).Nodup := by
  unfold claimCandidates
  have h2 : ((st.executions.filter (eligibleB now)).map (fun e => e.id)).Nodup :=
    List.Nodup.sublist ((List.filter_sublist _).map _) hnd
  have h3 : (((st.executions.filter (eligibleB now)).insertionSort
      (fun a b => claimSortKey a ≤ claimSortKey b)).map (fun e => e.id)).Nodup :=
    (((List.perm_insertionSort _ _).map _).nodup_iff).mpr h2
  exact List.Nodup.sublist ((List.take_sublist _ _).map _) h3

theorem claimCandidates_length_le {st : StoreState} {now limit : Nat} :
    (claimCandidates st now limit).length ≤ (st.executions.filter (eligibleB now)).length := by
  unfold claimCandidates
  have h1 : (((st.executions.filter (eligibleB now)).insertionSort
      (fun a b => claimSortKey a ≤ claimSortKey b)).take limit).length
      ≤ ((st.executions.filter (eligibleB now)).insertionSort
        (fun a b => claimSortKey a ≤ claimSortKey b)).length := by
    rw [List.length_take]
    exact min_le_right _ _
  rwa [(List.perm_insertionSort _ _).length_eq] at h1

theorem claimFold_spec (w : String) (now : Nat) :
    ∀ (cands : List Execution) (st0 : StoreState) (claimed0 : List Execution),
    (∀ c ∈ cands, getExecution st0 c.id = some c) →
    ((cands.map (fun e => e.id)).Nodup) →
    ((cands.foldl (claimStep w now) (claimed0, st0)).2.executions.map (fun e => e.id)
        = st0.executions.map (fun e => e.id)) ∧
    ∃ added : List Execution,
      (cands.foldl (claimStep w now) (claimed0, st0)).1 = claimed0 ++ added ∧
      (added.map (fun e => e.id)).Sublist (cands.map (fun e => e.id)) ∧
      (∀ e ∈ added, ∃ c ∈ cands, c.id = e.id ∧ e = applyClaim w now c ∧
        getExecution (cands.foldl (claimStep w now) (claimed0, st0)).2 e.id = some e) ∧
      (∀ id', id' ∉ added.map (fun e => e.id) →
        getExecution (cands.foldl (claimStep w now) (claimed0, st0)).2 id'
          = getExecution st0 id') := by
  intro cands
  induction cands with
  | nil =>
    intro st0 claimed0 _ _
    exact ⟨rfl, [], by simp, by simp, by simp, fun _ _ => rfl⟩
  | cons c rest ih =>
    intro st0 claimed0 hsub hnd
    have hc : getExecution st0 c.id = some c := hsub c (List.mem_cons_self c rest)
    rw [List.map_cons, List.nodup_cons] at hnd
    have hstep : claimStep w now (claimed0, st0) c =
        if lockIsFresh now c.lockedAt then (claimed0, st0)
        else (claimed0 ++ [applyClaim w now c], setExecution st0 c.id (applyClaim w now c)) := by
      unfold claimStep
      rw [hc]
    by_cases hlock : lockIsFresh now c.lockedAt = true
    · rw [List.foldl_cons, hstep, if_pos hlock]
      obtain ⟨hids, added, hadd, hsubl, hmem, huntouched⟩ :=
        ih st0 claimed0 (fun x hx => hsub x (List.mem_cons_of_mem c hx)) hnd.2
      refine ⟨hids, added, hadd, ?_, ?_, huntouched⟩
      · exact hsubl.trans (List.sublist_cons_self _ _)
      · intro e he
        obtain ⟨c', hc', h1, h2, h3⟩ := hmem e he
        exact ⟨c', List.mem_cons_of_mem c hc', h1, h2, h3⟩
    · rw [List.foldl_cons, hstep, if_neg hlock]
      have hupd_id : (applyClaim w now c).id = c.id := applyClaim_id w now c
      have hsub' : ∀ x ∈ rest, getExecution (setExecution st0 c.id (applyClaim w now c)) x.id
          = some x := by
        intro x hx
        have hxne : x.id ≠ c.id := by
          intro hcontra
          exact hnd.1 (hcontra ▸ List.mem_map_of_mem (fun e => e.id) hx)
        rw [getExecution_set_ne hxne hupd_id]
        exact hsub x (List.mem_cons_of_mem c hx)
      obtain ⟨hids, added', hadd, hsubl, hmem, huntouched⟩ :=
        ih (setExecution st0 c.id (applyClaim w now c)) (claimed0 ++ [applyClaim w now c])
          hsub' hnd.2
      have hids_set : (setExecution st0 c.id (applyClaim w now c)).executions.map (fun e => e.id)
          = st0.executions.map (fun e => e.id) := ids_setExecution hupd_id
      have hcid_not_rest : c.id ∉ added'.map (fun e => e.id) := by
        intro hcontra
        exact hnd.1 (hsubl.subset hcontra)
      refine ⟨hids.trans hids_set, applyClaim w now c :: added', ?_, ?_, ?_, ?_⟩
      · rw [hadd, List.append_assoc, List.singleton_append]
      · rw [List.map_cons, hupd_id]
        exact hsubl.cons₂ c.id
      · intro e he
        rcases List.mem_cons.mp he with rfl | he'
        · refine ⟨c, List.mem_cons_self c rest, hupd_id.symm, rfl, ?_⟩
          rw [hupd_id, huntouched c.id hcid_not_rest]
          exact getExecution_set hc hupd_id
        · obtain ⟨c', hc', h1, h2, h3⟩ := hmem e he'
          exact ⟨c', List.mem_cons_of_mem c hc', h1, h2, h3⟩
      · intro id' hid'
        rw [List.map_cons] at hid'
        have h1 : id' ∉ added'.map (fun e => e.id) := fun hmem' =>
          hid' (List.mem_cons_of_mem _ hmem')
        have h2 : id' ≠ c.id := by
          intro hcontra
          exact hid' (hcontra ▸ hupd_id ▸ List.mem_cons_self _ _)
        rw [huntouched id' h1, getExecution_set_ne h2 hupd_id]

theorem claimCandidates_subset_filter {st : StoreState} {now limit : Nat} {c : Execution}
    (hc : c ∈ claimCandidates st now limit) :
    c ∈ st.executions.filter (eligibleB now) := by
  unfold claimCandidates at hc
  exact (List.perm_insertionSort _ _).mem_iff.mp (List.mem_of_mem_take hc)

theorem claimExecutions_spec {st : StoreState}
    (hnd : (st.executions.map (fun e => e.id)).Nodup) (w : String) (limit now : Nat) :
    ((claimExecutions st w limit now).2.executions.map (fun e => e.id)
        = st.executions.map (fun e => e.id)) ∧
    (((claimExecutions st w limit now).1.map (fun e => e.id)).Nodup) ∧
    ((claimExecutions st w limit now).1.length
        ≤ (st.executions.filter (eligibleB now)).length) ∧
    (∀ e ∈ (claimExecutions st w limit now).1,
      ∃ c ∈ claimCandidates st now limit, c.id = e.id ∧ e = applyClaim w now c ∧
        getExecution (claimExecutions st w limit now).2 e.id = some e) ∧
    (∀ id', id' ∉ (claimExecutions st w limit now).1.map (fun e => e.id) →
      getExecution (claimExecutions st w limit now).2 id' = getExecution st id') := by
  unfold claimExecutions
  obtain ⟨hids, added, hadd, hsubl, hmem, huntouched⟩ :=
    claimFold_spec w now (claimCandidates st now limit) st []
      (fun c hc => (claimCandidates_spec hnd c hc).1) (claimCandidates_nodup hnd)
  rw [List.nil_append] at hadd
  refine ⟨hids, ?_, ?_, ?_, ?_⟩
  · rw [hadd]
    exact List.Nodup.sublist hsubl (claimCandidates_nodup hnd)
  · rw [hadd]
    have hle := hsubl.length_le
    rw [List.length_map, List.length_map] at hle
    exact hle.trans claimCandidates_length_le
  · intro e he
    rw [hadd] at he
    exact hmem e he
  · intro id' h
    rw [hadd] at h
    exact huntouched id' h

/-- C1: under the store lock each `claimExecutions` call is atomic, and every
execution it returns is marked status=running in the resulting store state before
any other caller can observe it.  Hence two claim calls run one after the other on
the same store — with any worker ids, batch sizes and clocks — return sets of
executions with disjoint ids, the combined id list has no duplicates, and (when the
second call runs at the same clock instant) the union has size at most the number P
of eligible (pending or due retry_scheduled) executions of the original store. -/
theorem claim_sequential_no_duplicates
    (st : StoreState) (hnd : (st.executions.map (fun e => e.id)).Nodup)
    (w₁ w₂ : String) (n₁ n₂ now now' : Nat) :
    ((claimExecutions st w₁ n₁ now).1.map (fun e => e.id)
      ++ (claimExecutions (claimExecutions st w₁ n₁ now).2 w₂ n₂ now').1.map
          (fun e => e.id)).Nodup
    ∧ (now' = now →
        (claimExecutions st w₁ n₁ now).1.length
          + (claimExecutions (claimExecutions st w₁ n₁ now).2 w₂ n₂ now').1.length
          ≤ (st.executions.filter (eligibleB now)).length) := by
  obtain ⟨hids₁, hnodup₁, hlen₁, hmem₁, huntouched₁⟩ := claimExecutions_spec hnd w₁ n₁ now
  have hnd₁ : ((claimExecutions st w₁ n₁ now).2.executions.map (fun e => e.id)).Nodup := by
    rw [hids₁]
    exact hnd
  obtain ⟨hids₂, hnodup₂, hlen₂, hmem₂, huntouched₂⟩ := claimExecutions_spec hnd₁ w₂ n₂ now'
  have hdisj : List.Disjoint
      ((claimExecutions st w₁ n₁ now).1.map (fun e => e.id))
      ((claimExecutions (claimExecutions st w₁ n₁ now).2 w₂ n₂ now').1.map (fun e => e.id)) := by
    intro i hi₁ hi₂
    obtain ⟨e₁, he₁, rfl⟩ := List.mem_map.mp hi₁
    obtain ⟨e₂, he₂, hid⟩ := List.mem_map.mp hi₂
    obtain ⟨c₁, hc₁, _, hec₁, hget₁⟩ := hmem₁ e₁ he₁
    obtain ⟨c₂, hc₂, hcid₂, _, _⟩ := hmem₂ e₂ he₂
    have hc₂get := (claimCandidates_spec hnd₁ c₂ hc₂).1
    have hc₂elig := (claimCandidates_spec hnd₁ c₂ hc₂).2
    rw [hcid₂, hid] at hc₂get
    rw [hget₁] at hc₂get
    injection hc₂get with hce
    have hrun : e₁.status = .running := by
      rw [hec₁]
      exact applyClaim_status_running
        (status_of_eligible (claimCandidates_spec hnd c₁ hc₁).2)
    rcases status_of_eligible hc₂elig with h | h <;>
      · rw [← hce] at h
        rw [h] at hrun
        exact ExecStatus.noConfusion hrun
  constructor
  · exact List.Nodup.append hnodup₁ hnodup₂ hdisj
  · intro hnow
    subst hnow
    have hsub : ((claimExecutions st w₁ n₁ now').1.map (fun e => e.id)
        ++ (claimExecutions (claimExecutions st w₁ n₁ now').2 w₂ n₂ now').1.map
          (fun e => e.id))
        ⊆ (st.executions.filter (eligibleB now')).map (fun e => e.id) := by
      intro i hi
      rcases List.mem_append.mp hi with hi₁ | hi₂
      · obtain ⟨e₁, he₁, rfl⟩ := List.mem_map.mp hi₁
        obtain ⟨c₁, hc₁, hcid₁, _, _⟩ := hmem₁ e₁ he₁
        exact hcid₁ ▸ List.mem_map_of_mem _ (claimCandidates_subset_filter hc₁)
      · obtain ⟨e₂, he₂, rfl⟩ := List.mem_map.mp hi₂
        obtain ⟨c₂, hc₂, hcid₂, _, _⟩ := hmem₂ e₂ he₂
        have hfil₂ := claimCandidates_subset_filter hc₂
        have helig₂ := List.of_mem_filter hfil₂
        have hget₂ := (claimCandidates_spec hnd₁ c₂ hc₂).1
        have hnotin₁ : c₂.id ∉ (claimExecutions st w₁ n₁ now').1.map (fun e => e.id) := by
          intro hcontra
          exact hdisj hcontra (hcid₂ ▸ List.mem_map_of_mem (fun e => e.id) he₂)
        rw [huntouched₁ c₂.id hnotin₁] at hget₂
        have hmemst : c₂ ∈ st.executions := mem_of_getExecution_some hget₂
        exact hcid₂ ▸
          List.mem_map_of_mem _ (List.mem_filter_of_mem hmemst helig₂)
    have hnodup_all := List.Nodup.append hnodup₁ hnodup₂ hdisj
    have hle := (hnodup_all.subperm hsub).length_le
    rw [List.length_append, List.length_map, List.length_map, List.length_map] at hle
    exact hle

/-- Witness for `claim_sequential_no_duplicates` on a concrete store with two pending
executions, claimed by two workers one after the other. -/
theorem claim_sequential_no_duplicates_witness :
    (storeClaimPair.executions.map (fun e => e.id)).Nodup ∧
    (((claimExecutions storeClaimPair "w1" 1 0).1.map (fun e => e.id)
      ++ (claimExecutions (claimExecutions storeClaimPair "w1" 1 0).2 "w2" 2 0).1.map
          (fun e => e.id)).Nodup
    ∧ (0 = 0 →
        (claimExecutions storeClaimPair "w1" 1 0).1.length
          + (claimExecutions (claimExecutions storeClaimPair "w1" 1 0).2 "w2" 2 0).1.length
          ≤ (storeClaimPair.executions.filter (eligibleB 0)).length)) :=
  ⟨by decide, claim_sequential_no_duplicates storeClaimPair (by decide) "w1" "w2" 1 2 0 0⟩

/-- C6 counterexample: in the file store's claim, the ordering key of a
retry_scheduled row is its `nextRetryAt`, not `createdAt`.  With execution A created
at 0 but retry-scheduled for 10, and execution B created at 5 and pending, a claim at
now = 10 returns B before A even though A is older — refuting the claim that an older
execution is always returned before a younger one. -/
theorem claim_ordering_counterexample :
    ((claimExecutions storeMixedAges "w" 2 10).1.map (fun e => e.id) = ["B", "A"]) ∧
    execRetryOld.createdAt < execPendingYoung.createdAt ∧
    ¬ List.Pairwise (fun a b => a.createdAt ≤ b.createdAt)
        (claimExecutions storeMixedAges "w" 2 10).1 := by
  decide

/-- C6 amended: the file store's claim selects eligible executions in ascending order
of `claimSortKey` — `nextRetryAt` when present (retry_scheduled rows), else
`createdAt` — while the SQL `claim_executions` of rpc.sql orders by `created_at`
alone; only the latter always returns an older execution before a younger one. -/
theorem claim_ordering_amended :
    (∀ (st : StoreState) (now limit : Nat),
      List.Pairwise (fun a b => claimSortKey a ≤ claimSortKey b)
        (claimCandidates st now limit)) ∧
    (∀ (st : StoreState) (now limit : Nat),
      List.Pairwise (fun a b => a.createdAt ≤ b.createdAt)
        (sqlClaimCandidates st now limit)) := by
  constructor
  · intro st now limit
    haveI h1 : IsTotal Execution (fun a b => claimSortKey a ≤ claimSortKey b) :=
      ⟨fun a b => Nat.le_total _ _⟩
    haveI h2 : IsTrans Execution (fun a b => claimSortKey a ≤ claimSortKey b) :=
      ⟨fun _ _ _ => Nat.le_trans⟩
    have hs := List.sorted_insertionSort (fun a b => claimSortKey a ≤ claimSortKey b)
      (st.executions.filter (eligibleB now))
    exact List.Pairwise.sublist (List.take_sublist _ _) hs
  · intro st now limit
    haveI h1 : IsTotal Execution (fun a b => a.createdAt ≤ b.createdAt) :=
      ⟨fun a b => Nat.le_total _ _⟩
    haveI h2 : IsTrans Execution (fun a b => a.createdAt ≤ b.createdAt) :=
      ⟨fun _ _ _ => Nat.le_trans⟩
    have hs := List.sorted_insertionSort (fun a b => a.createdAt ≤ b.createdAt)
      (st.executions.filter (eligibleB now))
    exact List.Pairwise.sublist (List.take_sublist _ _) hs

/-- C2: evaluation of `addStepResult` at the failing input.  After a failed attempt 1
of step s1 and a completed attempt 2 of the same step, the store holds exactly ONE
record for the step — the completed one — and zero failed records: `addStepResult`
replaced the prior attempt's record instead of appending (file-store.ts and store.ts
overwrite by `stepId`, contradicting the append-only contract that the SQL store,
the schema and the repository's own concurrency test implement). -/
theorem addStepResult_overwrites_prior_attempt :
    ((getExecution (addStepResult (addStepResult storeSingleExec "E" failedAttemptRecord) "E"
        completedAttemptRecord) "E").map (fun e => e.steps) = some [completedAttemptRecord]) ∧
    ((getExecution (addStepResult (addStepResult storeSingleExec "E" failedAttemptRecord) "E"
        completedAttemptRecord) "E").map
      (fun e => (e.steps.filter (fun s => decide (s.status = .failed))).length) = some 0) := by
  decide

/-- C3 counterexample: a concrete interleaving in which an execution that has reached
the terminal status `cancelled` has its status mutated again.  The runner's final loop
iteration performs its post-step writes, a cancel request lands afterwards (setting
status = cancelled, which the route permits since the execution is running), and then
the runner's unguarded completion write overwrites `cancelled` with `completed` —
refuting the claim that a runner finishing its step loop after a cancellation never
overwrites the cancelled status. -/
theorem cancelled_overwritten_by_completion :
    ((getExecution c3CancelledStore "E").map (fun e => e.status) = some .cancelled) ∧
    ((cancelExecution c3AfterStepStore "E" 40).1 = .ok) ∧
    ((getExecution c3FinalStore "E").map (fun e => e.status) = some .completed) := by
  decide

/-- C3 amended: terminal protection holds exactly at the guarded points — a runner
that OBSERVES cancellation at one of its designated check points returns immediately
without touching the store or the DLQ, and the cancel route refuses to mutate an
execution already `completed` or `failed`; but the completion write itself is
unguarded (see `cancelled_overwritten_by_completion`), so a cancellation landing
between the runner's last check and that write is overwritten. -/
theorem terminal_protection_at_check_points
    (st : StoreState) (dlqEntries : List DlqEntry) (execId : String) (step : WorkflowStep)
    (result : ModelStepResult) (src : Nat) (ctxState : String) (now : Nat) (rand : ℚ)
    (dlqNewId : String)
    (hcancelled : runnerSeesCancelled st execId = true) :
    runnerPostStep st dlqEntries execId step result src ctxState now rand dlqNewId
      = (st, dlqEntries, none) ∧
    (∀ (id : String) (e : Execution) (now' : Nat),
      getExecution st id = some e → e.status = .completed ∨ e.status = .failed →
      cancelExecution st id now' = (.conflict, st)) := by
  constructor
  · unfold runnerPostStep
    rw [if_pos hcancelled]
  · intro id e now' hget hterm
    unfold cancelExecution
    rw [hget]
    dsimp only
    rw [if_pos hterm]

/-- Witness for `terminal_protection_at_check_points`: the runner's post-step check
on the store holding the cancelled execution C returns the store untouched. -/
theorem terminal_protection_witness :
    runnerSeesCancelled storeCancelledExec "C" = true ∧
    (runnerPostStep storeCancelledExec [] "C" retryStep
        { status := .completed, output := some "out", error := none, nextStep := none }
        0 "ctx" 99 0 "dlq1"
      = (storeCancelledExec, [], none) ∧
    (∀ (id : String) (e : Execution) (now' : Nat),
      getExecution storeCancelledExec id = some e →
      e.status = .completed ∨ e.status = .failed →
      cancelExecution storeCancelledExec id now' = (.conflict, storeCancelledExec))) :=
  ⟨by decide,
    terminal_protection_at_check_points storeCancelledExec [] "C" retryStep
      { status := .completed, output := some "out", error := none, nextStep := none }
      0 "ctx" 99 0 "dlq1" (by decide)⟩

/-- C9 counterexample: the cancel route returns conflict only for `completed` and
`failed`; an execution already in the terminal state `cancelled` is "cancelled"
again with a success response — refuting "conflict iff the execution is already in a
terminal state (completed, failed, or cancelled)". -/
theorem cancel_cancelled_not_conflict :
    cancelledExec.status = .cancelled ∧
    (cancelExecution storeCancelledExec "C" 30).1 = .ok := by
  decide

/-- C9 amended: cancel returns conflict iff the execution's status is `completed` or
`failed`; for every other status — including an already-cancelled execution — it
succeeds and writes status = cancelled with completedAt = now. -/
theorem cancel_conflict_iff_completed_or_failed
    (st : StoreState) (id : String) (now : Nat) (e : Execution)
    (hget : getExecution st id = some e) :
    ((cancelExecution st id now).1 = .conflict ↔
      (e.status = .completed ∨ e.status = .failed)) ∧
    (¬ (e.status = .completed ∨ e.status = .failed) →
      (cancelExecution st id now).1 = .ok ∧
      ∃ e', getExecution (cancelExecution st id now).2 id = some e' ∧
        e'.status = .cancelled ∧ e'.completedAt = some now) := by
  unfold cancelExecution
  rw [hget]
  dsimp only
  by_cases h : e.status = .completed ∨ e.status = .failed
  · rw [if_pos h]
    exact ⟨⟨fun _ => h, fun _ => rfl⟩, fun hc => absurd h hc⟩
  · rw [if_neg h]
    refine ⟨⟨fun hcontra => absurd hcontra (by simp), fun hcontra => absurd hcontra h⟩, ?_⟩
    intro _
    refine ⟨rfl, applyPatch (cancelPatch now) e, getExecution_update hget, ?_, ?_⟩
    · rfl
    · rfl

/-- Witness for `cancel_conflict_iff_completed_or_failed` on the store holding the
running execution E: no conflict, and the cancel write lands. -/
theorem cancel_conflict_iff_witness :
    getExecution storeRunning "E" = some runningExec ∧
    (((cancelExecution storeRunning "E" 40).1 = .conflict ↔
      (runningExec.status = .completed ∨ runningExec.status = .failed)) ∧
    (¬ (runningExec.status = .completed ∨ runningExec.status = .failed) →
      (cancelExecution storeRunning "E" 40).1 = .ok ∧
      ∃ e', getExecution (cancelExecution storeRunning "E" 40).2 "E" = some e' ∧
        e'.status = .cancelled ∧ e'.completedAt = some 40)) :=
  ⟨by decide, cancel_conflict_iff_completed_or_failed storeRunning "E" 40 runningExec (by decide)⟩

theorem find?_setIdempotencyKey (l : List (String × String)) (k v : String) :
    (setIdempotencyKey l k v).find? (fun kv => kv.1 == k) = some (k, v) := by
  induction l with
  | nil =>
    have hb : (((k, v).1 == k) = true) := beq_iff_eq.mpr rfl
    simp only [setIdempotencyKey, List.find?_cons, hb]
  | cons kv rest ih =>
    simp only [setIdempotencyKey]
    cases hb : (kv.1 == k) with
    | true =>
      rw [if_pos rfl]
      have hb' : (((k, v).1 == k) = true) := beq_iff_eq.mpr rfl
      simp only [List.find?_cons, hb']
    | false =>
      rw [if_neg (by simp)]
      simp only [List.find?_cons, hb]
      exact ih

/-- C4: `create_execution` with an idempotency key that is already bound to an
existing execution returns that execution unchanged and creates no row, for every
input payload; and with a fresh key it creates exactly one new pending row, binds the
key to it, and every later call supplying that key gets exactly that execution back
with the store unchanged. -/
theorem createExecution_idempotent
    (st : StoreState) (wfId wfName input k newId : String) (now : Nat) :
    (∀ (eid : String) (e : Execution),
      lookupIdempotencyKey st k = some eid → getExecution st eid = some e →
      createExecution st wfId wfName input (some k) newId now = (e, st)) ∧
    (lookupIdempotencyKey st k = none → getExecution st newId = none →
      ((createExecution st wfId wfName input (some k) newId now).1.id = newId ∧
       (createExecution st wfId wfName input (some k) newId now).2.executions
         = st.executions ++ [(createExecution st wfId wfName input (some k) newId now).1] ∧
       (∀ (wfId₂ wfName₂ input₂ newId₂ : String) (now₂ : Nat),
         createExecution (createExecution st wfId wfName input (some k) newId now).2
             wfId₂ wfName₂ input₂ (some k) newId₂ now₂
           = ((createExecution st wfId wfName input (some k) newId now).1,
              (createExecution st wfId wfName input (some k) newId now).2)))) := by
  constructor
  · intro eid e hlk hge
    unfold createExecution
    dsimp only
    rw [hlk]
    dsimp only
    rw [hge]
  · intro hlk hfresh
    unfold createExecution
    dsimp only
    rw [hlk]
    dsimp only
    have hl2 : lookupIdempotencyKey
        (createFreshExecution st wfId wfName input (some k) newId now).2 k = some newId := by
      unfold lookupIdempotencyKey createFreshExecution
      dsimp only
      rw [find?_setIdempotencyKey]
      rfl
    have hg2 : getExecution (createFreshExecution st wfId wfName input (some k) newId now).2
        newId = some (newExecution wfId wfName input (some k) newId now) := by
      unfold getExecution createFreshExecution
      dsimp only
      rw [List.find?_append]
      have hnone : st.executions.find? (fun e => e.id == newId) = none := hfresh
      rw [hnone]
      have hb : (((newExecution wfId wfName input (some k) newId now).id == newId) = true) :=
        beq_iff_eq.mpr rfl
      simp only [List.find?_cons, hb, Option.none_or]
    refine ⟨rfl, rfl, ?_⟩
    intro wfId₂ wfName₂ input₂ newId₂ now₂
    rw [hl2]
    dsimp only
    rw [hg2]
    rfl

/-- Witness for `createExecution_idempotent` on a concrete store: key k is already
bound to execution X, and key k2 is fresh. -/
theorem createExecution_idempotent_witness :
    (lookupIdempotencyKey storeWithKey "k" = some "X") ∧
    ((∀ (eid : String) (e : Execution),
      lookupIdempotencyKey storeWithKey "k" = some eid → getExecution storeWithKey eid = some e →
      createExecution storeWithKey "wf-1" "demo-workflow" "payload" (some "k") "NEW" 9 = (e, storeWithKey)) ∧
    (lookupIdempotencyKey storeWithKey "k" = none → getExecution storeWithKey "NEW" = none →
      ((createExecution storeWithKey "wf-1" "demo-workflow" "payload" (some "k") "NEW" 9).1.id = "NEW" ∧
       (createExecution storeWithKey "wf-1" "demo-workflow" "payload" (some "k") "NEW" 9).2.executions
         = storeWithKey.executions
             ++ [(createExecution storeWithKey "wf-1" "demo-workflow" "payload" (some "k") "NEW" 9).1] ∧
       (∀ (wfId₂ wfName₂ input₂ newId₂ : String) (now₂ : Nat),
         createExecution (createExecution storeWithKey "wf-1" "demo-workflow" "payload" (some "k") "NEW" 9).2
             wfId₂ wfName₂ input₂ (some "k") newId₂ now₂
           = ((createExecution storeWithKey "wf-1" "demo-workflow" "payload" (some "k") "NEW" 9).1,
              (createExecution storeWithKey "wf-1" "demo-workflow" "payload" (some "k") "NEW" 9).2))))) :=
  ⟨by decide, createExecution_idempotent storeWithKey "wf-1" "demo-workflow" "payload" "k" "NEW" 9⟩

/-- C7: the interpreter races every handler against the effective timeout
`step.timeoutMs` (default 60000 ms); whenever the handler needs longer than the
timeout, `executeStep` returns a failed result with the exact message
`Step timed out after <timeout_ms>ms`; in particular a `delay` step whose
`durationMs` exceeds its (positive) `timeoutMs` always yields that timeout failure
instead of completing. -/
theorem executeStep_timeout_spec :
    (∀ (step : WorkflowStep) (h : HandlerOutcome),
      effectiveTimeoutMs step < h.finishTime →
      executeStepTimed step h =
        { status := .failed,
          error := some ("Step timed out after " ++ toString (effectiveTimeoutMs step) ++ "ms"),
          output := none, nextStep := none }) ∧
    (∀ (step : WorkflowStep) (t d : Nat), step.timeoutMs = some t → t ≠ 0 →
      step.durationMs = some d → t < d →
      executeStepDelay step =
        { status := .failed,
          error := some ("Step timed out after " ++ toString t ++ "ms"),
          output := none, nextStep := none }) := by
  constructor
  · intro step h hlt
    unfold executeStepTimed raceWithTimeout
    rw [if_pos hlt]
  · intro step t d ht ht0 hd hlt
    have heff : effectiveTimeoutMs step = t := by
      unfold effectiveTimeoutMs
      rw [ht]
      exact if_neg ht0
    have hdur : delayDurationMs step.durationMs = d := by
      unfold delayDurationMs
      rw [hd]
      exact if_neg (by omega)
    unfold executeStepDelay executeStepTimed raceWithTimeout delayHandler
    dsimp only
    rw [heff, hdur, if_pos hlt]

/-- Witness for `executeStep_timeout_spec` on the TIMEOUT_WORKFLOW delay step
(5000 ms delay against a 2000 ms timeout). -/
theorem executeStep_timeout_witness :
    longDelayStep.timeoutMs = some 2000 ∧ (2000 : Nat) ≠ 0 ∧
    longDelayStep.durationMs = some 5000 ∧ (2000 : Nat) < 5000 ∧
    executeStepDelay longDelayStep =
      { status := .failed,
        error := some ("Step timed out after " ++ toString (2000 : Nat) ++ "ms"),
        output := none, nextStep := none } :=
  ⟨by decide, by decide, by decide, by decide,
    executeStep_timeout_spec.2 longDelayStep 2000 5000 rfl (by decide) rfl (by decide)⟩

/-- C8: for attempts a ≥ 1 the retry scheduler returns a delay in
[min(base·2^(a-1), max), 1.2·min(base·2^(a-1), max)] — the capped exponential value
plus at most +20% jitter — and attempt values ≤ 0 are normalized to 1 (the function
is a pure function of its arguments, hence deterministic given its RNG draw). -/
theorem calculateNextDelay_spec (a : ℤ) (b m : Nat) (r : ℚ) (h0 : 0 ≤ r) (h1 : r < 1) :
    (1 ≤ a →
      ((min (b * 2 ^ (a - 1).toNat) m : Nat) : ℤ) ≤ calculateNextDelay a b m r ∧
      ((calculateNextDelay a b m r : ℚ)
        ≤ (6 / 5) * ((min (b * 2 ^ (a - 1).toNat) m : Nat) : ℚ))) ∧
    (a ≤ 0 → calculateNextDelay a b m r = calculateNextDelay 1 b m r) := by
  constructor
  · intro ha
    have hmax : max 1 a = a := max_eq_right ha
    have heq : calculateNextDelay a b m r
        = Int.floor (min ((b:ℚ) * 2 ^ (max 1 a - 1).toNat) (m:ℚ)
            + min ((b:ℚ) * 2 ^ (max 1 a - 1).toNat) (m:ℚ) * (r * (1 / 5))) := rfl
    rw [heq, hmax]
    have hcast : ((min (b * 2 ^ (a - 1).toNat) m : Nat) : ℚ)
        = min ((b:ℚ) * 2 ^ (a - 1).toNat) (m:ℚ) := by
      push_cast
      rfl
    have hcapped0 : (0:ℚ) ≤ min ((b:ℚ) * 2 ^ (a - 1).toNat) (m:ℚ) :=
      le_min (by positivity) (by positivity)
    have hjit : (0:ℚ) ≤ min ((b:ℚ) * 2 ^ (a - 1).toNat) (m:ℚ) * (r * (1 / 5)) := by
      positivity
    constructor
    · rw [Int.le_floor, Int.cast_natCast, hcast]
      linarith
    · have hfl := Int.floor_le (min ((b:ℚ) * 2 ^ (a - 1).toNat) (m:ℚ)
          + min ((b:ℚ) * 2 ^ (a - 1).toNat) (m:ℚ) * (r * (1 / 5)))
      rw [hcast]
      nlinarith
  · intro ha
    have hmax : max 1 a = 1 := max_eq_left (by linarith)
    have heq1 : calculateNextDelay a b m r
        = Int.floor (min ((b:ℚ) * 2 ^ (max 1 a - 1).toNat) (m:ℚ)
            + min ((b:ℚ) * 2 ^ (max 1 a - 1).toNat) (m:ℚ) * (r * (1 / 5))) := rfl
    have heq2 : calculateNextDelay 1 b m r
        = Int.floor (min ((b:ℚ) * 2 ^ ((max (1:ℤ) 1) - 1).toNat) (m:ℚ)
            + min ((b:ℚ) * 2 ^ ((max (1:ℤ) 1) - 1).toNat) (m:ℚ) * (r * (1 / 5))) := rfl
    rw [heq1, heq2, hmax, max_self]

/-- Witness for `calculateNextDelay_spec` at attempt 2, base 1000, cap 30000 and an
RNG draw of one half. -/
theorem calculateNextDelay_spec_witness :
    (0 ≤ (1/2 : ℚ)) ∧ ((1/2 : ℚ) < 1) ∧
    ((1 ≤ (2:ℤ) →
      ((min (1000 * 2 ^ ((2:ℤ) - 1).toNat) 30000 : Nat) : ℤ)
          ≤ calculateNextDelay 2 1000 30000 (1/2) ∧
      ((calculateNextDelay 2 1000 30000 (1/2) : ℚ)
        ≤ (6 / 5) * ((min (1000 * 2 ^ ((2:ℤ) - 1).toNat) 30000 : Nat) : ℚ))) ∧
    ((2:ℤ) ≤ 0 → calculateNextDelay 2 1000 30000 (1/2) = calculateNextDelay 1 1000 30000 (1/2))) :=
  ⟨by norm_num, by norm_num,
    calculateNextDelay_spec 2 1000 30000 (1/2) (by norm_num) (by norm_num)⟩

/-- C10: the runner computes the retry delay as
`calculateNextDelay(attempts, step.retryPolicy?.delayMs || 1000)` — with only two
arguments.  Hence the delay (i) depends on the step's retry policy only through its
`delayMs` (the declared `backoffMultiplier` and `maxAttempts` are never passed),
(ii) is capped by the default 30000 ms cap — never exceeding 36000 ms with the +20%
jitter — regardless of the policy, and (iii) doubles with each attempt below the
cap, i.e. the multiplier in effect is always 2. -/
theorem runnerRetryDelay_policy_independent :
    (∀ (step : WorkflowStep) (p q : StepRetryPolicy), p.delayMs = q.delayMs →
      ∀ (att : Nat) (r : ℚ),
        runnerRetryDelay { step with retryPolicy := some p } att r
          = runnerRetryDelay { step with retryPolicy := some q } att r) ∧
    (∀ (step : WorkflowStep) (att : Nat) (r : ℚ), 0 ≤ r → r < 1 →
      runnerRetryDelay step att r ≤ 36000) ∧
    (∀ (step : WorkflowStep) (att : Nat), 1 ≤ att →
      runnerRetryBaseDelay step.retryPolicy * 2 ^ att ≤ 30000 →
      runnerRetryDelay step (att + 1) 0 = 2 * runnerRetryDelay step att 0) := by
  refine ⟨?_, ?_, ?_⟩
  · intro step p q hpq att r
    have hbase : runnerRetryBaseDelay (some p) = runnerRetryBaseDelay (some q) := by
      unfold runnerRetryBaseDelay
      dsimp only
      rw [hpq]
    unfold runnerRetryDelay
    dsimp only
    rw [hbase]
  · intro step att r h0 h1
    unfold runnerRetryDelay
    have heq : calculateNextDelay att (runnerRetryBaseDelay step.retryPolicy) 30000 r
        = Int.floor
            (min ((runnerRetryBaseDelay step.retryPolicy : ℚ)
                * 2 ^ (max 1 (att:ℤ) - 1).toNat) ((30000:ℕ):ℚ)
              + min ((runnerRetryBaseDelay step.retryPolicy : ℚ)
                * 2 ^ (max 1 (att:ℤ) - 1).toNat) ((30000:ℕ):ℚ) * (r * (1 / 5))) := rfl
    rw [heq]
    have hc1 : min ((runnerRetryBaseDelay step.retryPolicy : ℚ)
        * 2 ^ (max 1 (att:ℤ) - 1).toNat) ((30000:ℕ):ℚ) ≤ 30000 := by
      have := min_le_right ((runnerRetryBaseDelay step.retryPolicy : ℚ)
        * 2 ^ (max 1 (att:ℤ) - 1).toNat) ((30000:ℕ):ℚ)
      have hnum : ((30000:ℕ):ℚ) = 30000 := by norm_num
      linarith [hnum ▸ this]
    have hc0 : (0:ℚ) ≤ min ((runnerRetryBaseDelay step.retryPolicy : ℚ)
        * 2 ^ (max 1 (att:ℤ) - 1).toNat) ((30000:ℕ):ℚ) :=
      le_min (by positivity) (by positivity)
    have hx : min ((runnerRetryBaseDelay step.retryPolicy : ℚ)
          * 2 ^ (max 1 (att:ℤ) - 1).toNat) ((30000:ℕ):ℚ)
        + min ((runnerRetryBaseDelay step.retryPolicy : ℚ)
          * 2 ^ (max 1 (att:ℤ) - 1).toNat) ((30000:ℕ):ℚ) * (r * (1 / 5))
        ≤ 36000 := by
      nlinarith [mul_le_mul_of_nonneg_left (show r * (1/5:ℚ) ≤ 1/5 by linarith) hc0,
        mul_le_mul_of_nonneg_right hc1 (show (0:ℚ) ≤ 1/5 by norm_num)]
    have hfl := Int.floor_le_floor hx
    have h36 : ⌊(36000:ℚ)⌋ = 36000 := by norm_num
    rw [h36] at hfl
    exact hfl
  · intro step att ha hcap
    have h1le : (1:ℤ) ≤ (att:ℤ) := by exact_mod_cast ha
    have hmax1 : max 1 ((att:ℤ)) = (att:ℤ) := max_eq_right h1le
    have hmax2 : max 1 (((att + 1 : ℕ)):ℤ) = ((att + 1 : ℕ):ℤ) :=
      max_eq_right (by push_cast; linarith)
    have htn1 : ((att:ℤ) - 1).toNat = att - 1 := by omega
    have htn2 : ((((att + 1 : ℕ)):ℤ) - 1).toNat = att := by omega
    unfold runnerRetryDelay
    have heqs : calculateNextDelay (att + 1 : ℕ) (runnerRetryBaseDelay step.retryPolicy) 30000 0
        = Int.floor
            (min ((runnerRetryBaseDelay step.retryPolicy : ℚ) * 2 ^ att) ((30000:ℕ):ℚ)
              + min ((runnerRetryBaseDelay step.retryPolicy : ℚ) * 2 ^ att) ((30000:ℕ):ℚ)
                * ((0:ℚ) * (1 / 5))) := by
      show Int.floor _ = _
      rw [hmax2, htn2]
    have heqa : calculateNextDelay (att : ℕ) (runnerRetryBaseDelay step.retryPolicy) 30000 0
        = Int.floor
            (min ((runnerRetryBaseDelay step.retryPolicy : ℚ) * 2 ^ (att - 1)) ((30000:ℕ):ℚ)
              + min ((runnerRetryBaseDelay step.retryPolicy : ℚ) * 2 ^ (att - 1)) ((30000:ℕ):ℚ)
                * ((0:ℚ) * (1 / 5))) := by
      show Int.floor _ = _
      rw [hmax1, htn1]
    rw [heqs, heqa]
    simp only [zero_mul, mul_zero, add_zero]
    have hle1 : (runnerRetryBaseDelay step.retryPolicy : ℚ) * 2 ^ att ≤ ((30000:ℕ):ℚ) := by
      exact_mod_cast hcap
    have hle2 : (runnerRetryBaseDelay step.retryPolicy : ℚ) * 2 ^ (att - 1) ≤ ((30000:ℕ):ℚ) := by
      have hpow : (2:ℚ) ^ (att - 1) ≤ 2 ^ att :=
        pow_le_pow_right₀ (by norm_num) (Nat.sub_le att 1)
      have := mul_le_mul_of_nonneg_left hpow
        (show (0:ℚ) ≤ (runnerRetryBaseDelay step.retryPolicy : ℚ) by positivity)
      linarith
    rw [min_eq_left hle1, min_eq_left hle2]
    have hc1 : ((runnerRetryBaseDelay step.retryPolicy : ℚ) * 2 ^ att)
        = (((runnerRetryBaseDelay step.retryPolicy * 2 ^ att : ℕ)):ℚ) := by push_cast; ring
    have hc2 : ((runnerRetryBaseDelay step.retryPolicy : ℚ) * 2 ^ (att - 1))
        = (((runnerRetryBaseDelay step.retryPolicy * 2 ^ (att - 1) : ℕ)):ℚ) := by
      push_cast; ring
    rw [hc1, hc2, Int.floor_natCast, Int.floor_natCast]
    have hsplit : runnerRetryBaseDelay step.retryPolicy * 2 ^ att
        = 2 * (runnerRetryBaseDelay step.retryPolicy * 2 ^ (att - 1)) := by
      conv_lhs => rw [← Nat.sub_add_cancel ha]
      rw [pow_succ]
      ring
    exact_mod_cast congrArg (fun n : Nat => (n : ℤ)) hsplit

/-- Witness for `runnerRetryDelay_policy_independent`: two policies sharing
delayMs = 1000 but with different backoffMultiplier and maxAttempts yield the same
delay; the cap and doubling clauses instantiated at attempt 1 with RNG draw 0. -/
theorem runnerRetryDelay_policy_independent_witness :
    (({ maxAttempts := 3, delayMs := 1000, backoffMultiplier := some 2 } : StepRetryPolicy).delayMs
      = ({ maxAttempts := 9, delayMs := 1000, backoffMultiplier := some 7 } : StepRetryPolicy).delayMs) ∧
    runnerRetryDelay
        { retryStep with retryPolicy := some { maxAttempts := 3, delayMs := 1000, backoffMultiplier := some 2 } } 1 0
      = runnerRetryDelay
        { retryStep with retryPolicy := some { maxAttempts := 9, delayMs := 1000, backoffMultiplier := some 7 } } 1 0 ∧
    ((0:ℚ) ≤ 0 ∧ (0:ℚ) < 1 ∧ runnerRetryDelay retryStep 1 0 ≤ 36000) ∧
    (1 ≤ 1 ∧ runnerRetryBaseDelay retryStep.retryPolicy * 2 ^ 1 ≤ 30000 ∧
      runnerRetryDelay retryStep (1 + 1) 0 = 2 * runnerRetryDelay retryStep 1 0) :=
  ⟨rfl,
    runnerRetryDelay_policy_independent.1 retryStep
      { maxAttempts := 3, delayMs := 1000, backoffMultiplier := some 2 }
      { maxAttempts := 9, delayMs := 1000, backoffMultiplier := some 7 } rfl 1 0,
    ⟨le_refl 0, by norm_num,
      runnerRetryDelay_policy_independent.2.1 retryStep 1 0 (le_refl 0) (by norm_num)⟩,
    ⟨le_refl 1, by decide,
      runnerRetryDelay_policy_independent.2.2 retryStep 1 (le_refl 1) (by decide)⟩⟩

/-- C5: when a step attempt fails, with attempts = retryCount + 1 and the budget
`runnerMaxAttempts` (= the policy's maxAttempts, default 3): below the budget the
execution is set to status = retry_scheduled with retryCount = attempts,
nextRetryAt = now + delay, currentStepId = step.id, and no DLQ entry is written; at
or above the budget the execution is set to status = failed with completedAt = now
and exactly one DLQ entry referencing the execution is appended; in both cases the
branch returns from run() and the failing step's `onError` successor is never
consulted (the result is invariant under changing it). -/
theorem runnerHandleFailure_spec
    (st : StoreState) (dlqEntries : List DlqEntry) (execId : String) (step : WorkflowStep)
    (src : Nat) (errMsg : Option String) (ctxState : String) (now : Nat) (rand : ℚ)
    (dlqNewId : String) (e : Execution)
    (hget : getExecution st execId = some e) :
    (src + 1 < runnerMaxAttempts step →
      (runnerHandleFailure st dlqEntries execId step src errMsg ctxState now rand dlqNewId).2
        = dlqEntries ∧
      ∃ e', getExecution
          (runnerHandleFailure st dlqEntries execId step src errMsg ctxState now rand
            dlqNewId).1 execId = some e' ∧
        e'.status = .retry_scheduled ∧
        e'.retryCount = src + 1 ∧
        e'.nextRetryAt = some (now + (runnerRetryDelay step (src + 1) rand).toNat) ∧
        e'.error = errMsg ∧
        e'.currentStepId = some step.id) ∧
    (¬ (src + 1 < runnerMaxAttempts step) →
      (∃ e', getExecution
          (runnerHandleFailure st dlqEntries execId step src errMsg ctxState now rand
            dlqNewId).1 execId = some e' ∧
        e'.status = .failed ∧ e'.completedAt = some now) ∧
      ∃ entry,
        (runnerHandleFailure st dlqEntries execId step src errMsg ctxState now rand dlqNewId).2
          = dlqEntries ++ [entry] ∧ entry.executionId = execId) ∧
    (∀ alt : Option String,
      runnerHandleFailure st dlqEntries execId { step with onError := alt } src errMsg ctxState
          now rand dlqNewId
        = runnerHandleFailure st dlqEntries execId step src errMsg ctxState now rand dlqNewId) ∧
    (∀ pol : StepRetryPolicy, step.retryPolicy = some pol → 1 ≤ pol.maxAttempts →
      runnerMaxAttempts step = pol.maxAttempts) ∧
    (step.retryPolicy = none → runnerMaxAttempts step = 3) := by
  have h1 : getExecution (addStepResult st execId
      { stepId := step.id, status := .failed, output := none, error := errMsg,
        attempts := src + 1, startedAt := some now, completedAt := some now }) execId
      = some (applyAddStepResult
          { stepId := step.id, status := .failed, output := none, error := errMsg,
            attempts := src + 1, startedAt := some now, completedAt := some now } e) :=
    getExecution_addStep hget
  refine ⟨?_, ?_, ?_, ?_, ?_⟩
  · intro hlt
    unfold runnerHandleFailure
    dsimp only
    rw [if_pos hlt]
    exact ⟨rfl, _, getExecution_update h1, rfl, rfl, rfl, rfl, rfl⟩
  · intro hlt
    unfold runnerHandleFailure
    dsimp only
    rw [if_neg hlt]
    have h2 := getExecution_update
      (p := fatalFailurePatch (errMsg.getD "Step failed max retries") ctxState now) h1
    refine ⟨⟨_, h2, rfl, rfl⟩, ?_⟩
    unfold dlqAdd
    rw [h2]
    dsimp only
    exact ⟨_, rfl, rfl⟩
  · intro alt
    rfl
  · intro pol hpol hge
    unfold runnerMaxAttempts
    rw [hpol]
    dsimp only
    rw [if_neg (by omega)]
  · intro hnone
    unfold runnerMaxAttempts
    rw [hnone]

/-- Witness for `runnerHandleFailure_spec`: the first failure of step s1 (policy
maxAttempts = 3) on the concrete store holding execution E. -/
theorem runnerHandleFailure_spec_witness :
    getExecution storeSingleExec "E" = some baseExec ∧
    ((0 + 1 < runnerMaxAttempts retryStep →
      (runnerHandleFailure storeSingleExec [] "E" retryStep 0 (some "boom") "ctx" 100 0
          "dlq1").2 = [] ∧
      ∃ e', getExecution
          (runnerHandleFailure storeSingleExec [] "E" retryStep 0 (some "boom") "ctx" 100 0
            "dlq1").1 "E" = some e' ∧
        e'.status = .retry_scheduled ∧
        e'.retryCount = 0 + 1 ∧
        e'.nextRetryAt = some (100 + (runnerRetryDelay retryStep (0 + 1) 0).toNat) ∧
        e'.error = some "boom" ∧
        e'.currentStepId = some retryStep.id) ∧
    (¬ (0 + 1 < runnerMaxAttempts retryStep) →
      (∃ e', getExecution
          (runnerHandleFailure storeSingleExec [] "E" retryStep 0 (some "boom") "ctx" 100 0
            "dlq1").1 "E" = some e' ∧
        e'.status = .failed ∧ e'.completedAt = some 100) ∧
      ∃ entry,
        (runnerHandleFailure storeSingleExec [] "E" retryStep 0 (some "boom") "ctx" 100 0
          "dlq1").2 = [] ++ [entry] ∧ entry.executionId = "E") ∧
    (∀ alt : Option String,
      runnerHandleFailure storeSingleExec [] "E" { retryStep with onError := alt } 0
          (some "boom") "ctx" 100 0 "dlq1"
        = runnerHandleFailure storeSingleExec [] "E" retryStep 0 (some "boom") "ctx" 100 0
          "dlq1") ∧
    (∀ pol : StepRetryPolicy, retryStep.retryPolicy = some pol → 1 ≤ pol.maxAttempts →
      runnerMaxAttempts retryStep = pol.maxAttempts) ∧
    (retryStep.retryPolicy = none → runnerMaxAttempts retryStep = 3)) :=
  ⟨by decide,
    runnerHandleFailure_spec storeSingleExec [] "E" retryStep 0 (some "boom") "ctx" 100 0
      "dlq1" baseExec (by decide)⟩

end StateFlow
